import Mathlib

set_option maxRecDepth 100000

/-!
Verification of the inbound edit-packet processor and per-sender reliability
tracker of the hifi octree server, shallowly embedded from
`src/assignment-client/src/octree/OctreeInboundPacketProcessor.cpp` and
`src/libraries/octree/src/OctreeDataUtils.cpp`.

Machine integers are modelled as `Nat`/`Int`, with explicit `% 65536` where
16-bit wraparound matters.  `quint64` counters are modelled as `Nat`: every
claim under study concerns the 16-bit sequence space, not 64-bit counter
wraparound.
-/

/-! ## Constants (OctreeInboundPacketProcessor.cpp, lines 281-284) -/

/-- `UINT16_MAX + 1`. -/
def UINT16_RANGE : Int := 65536

/-- Maximal gap between expected and incoming sequence numbers that is
still considered reasonable. -/
def MAX_REASONABLE_SEQUENCE_GAP : Int := 1000

/-- Cardinality threshold that triggers pruning of the missing set. -/
def MAX_MISSING_SEQUENCE_SIZE : Nat := 100

/-! ## SingleSenderStats -/

/-- Per-sender statistics: counters, last accepted sequence number (a `u16`,
modelled as a `Nat < 65536` in all reachable states) and the set of missing
sequence numbers (`QSet<unsigned short int>`, modelled as `Finset Nat`). -/
structure SingleSenderStats where
  totalTransitTime : Nat
  totalProcessTime : Nat
  totalLockWaitTime : Nat
  totalElementsInPacket : Nat
  totalPackets : Nat
  incomingLastSequence : Nat
  missingSequenceNumbers : Finset Nat
  deriving DecidableEq

/-- The default-constructed `SingleSenderStats` (lines 266-276): all counters
zero, `_incomingLastSequence = 0`, empty missing set. -/
def SingleSenderStats.init : SingleSenderStats :=
  ⟨0, 0, 0, 0, 0, 0, ∅⟩

/-- The insertion loop of the early case (lines 319-321): every integer in
`[expected, incoming)` is inserted, shifted back into the `u16` range when
negative (`missingSequence < 0 ? missingSequence + UINT16_RANGE`). -/
def missingRangeSet (expected incoming : Int) : Finset Nat :=
  (Finset.Ico expected incoming).image
    (fun m => (if m < 0 then m + UINT16_RANGE else m).toNat)

/-- The pruning pass (lines 335-356).  Runs only when the missing set has
more than `MAX_MISSING_SEQUENCE_SIZE` elements.  With `cutoff ≥ 0` it keeps
exactly the window `cutoff < m ≤ last`; otherwise (`last` close after a
rollover) it removes the band `last < m ≤ cutoff + UINT16_RANGE`.  The
`(unsigned short int)` casts in the source are the identity on the values
that occur there (`0 ≤ cutoff < 65536` resp. `0 ≤ cutoff + 65536 < 65536`
for `u16`-valued `last`), so they are not repeated here. -/
def pruneMissing (lastSeq : Nat) (missing : Finset Nat) : Finset Nat :=
  if MAX_MISSING_SEQUENCE_SIZE < missing.card then
    if 0 ≤ (lastSeq : Int) - MAX_REASONABLE_SEQUENCE_GAP then
      missing.filter (fun m =>
        ¬(lastSeq < m ∨ (m : Int) ≤ (lastSeq : Int) - MAX_REASONABLE_SEQUENCE_GAP))
    else
      missing.filter (fun m =>
        ¬(lastSeq < m ∧
          (m : Int) ≤ (lastSeq : Int) - MAX_REASONABLE_SEQUENCE_GAP + UINT16_RANGE))
  else missing

/-- `expectedSequence` (line 286): the sequence number the tracker expects
next — the incoming one itself on the very first packet, else
`last_sequence + 1` with 16-bit wraparound. -/
def expectedSeq (s : SingleSenderStats) (incomingSequence : Nat) : Nat :=
  if s.totalPackets = 0 then incomingSequence
  else (s.incomingLastSequence + 1) % 65536

/-- The rollover-correction / rejection step (lines 297-311): `none` is the
early `return` of the unreasonable-gap case; otherwise the (possibly
corrected, possibly negative) pair `(incoming, expected)` is returned. -/
def correctedPair (incoming expected : Int) : Option (Int × Int) :=
  if UINT16_RANGE - MAX_REASONABLE_SEQUENCE_GAP ≤ |incoming - expected| then
    some (if expected < incoming then (incoming - UINT16_RANGE, expected)
          else (incoming, expected - UINT16_RANGE))
  else if MAX_REASONABLE_SEQUENCE_GAP < |incoming - expected| then
    none
  else
    some (incoming, expected)

/-- The early/late branch applied to the result of the rollover correction
(lines 313-330): `none` propagates the rejection, early inserts the skipped
range `[exp, inc)` and advances `last`, late removes the arrived number and
keeps `last`. -/
def applyCorrected (s : SingleSenderStats) (incomingSequence : Nat) :
    Option (Int × Int) → Option (Nat × Finset Nat)
  | none => none
  | some (inc, exp) =>
      if exp < inc then
        -- early (lines 316-322): insert the skipped range, advance last
        some (incomingSequence, s.missingSequenceNumbers ∪ missingRangeSet exp inc)
      else
        -- late (lines 324-330): remove the arrived number, keep last
        some (s.incomingLastSequence, s.missingSequenceNumbers.erase incomingSequence)

/-- The sequence-state dispatch of `SingleSenderStats::trackInboundPacket`
(lines 286-331): `none` is the early `return` of the unreasonable-gap case
(line 310), `some (newLast, newMissing)` is the sequence state produced by
the on-time / early / late cases, before the pruning pass. -/
def seqDispatch (s : SingleSenderStats) (incomingSequence : Nat) :
    Option (Nat × Finset Nat) :=
  if incomingSequence = expectedSeq s incomingSequence then
    -- on time (lines 288-290)
    some (incomingSequence, s.missingSequenceNumbers)
  else
    applyCorrected s incomingSequence
      (correctedPair (incomingSequence : Int) ((expectedSeq s incomingSequence : Nat) : Int))

/-- `SingleSenderStats::trackInboundPacket` (lines 278-364): the sequence
dispatch, then — unless the packet was rejected, which skips everything —
the pruning pass and the counter updates of lines 333-363. -/
def SingleSenderStats.trackInboundPacket (s : SingleSenderStats)
    (incomingSequence transitTime : Nat) (editsInPacket : Nat)
    (processTime lockWaitTime : Nat) : SingleSenderStats :=
  match seqDispatch s incomingSequence with
  | none => s
  | some (newLast, newMissing) =>
    { totalTransitTime := s.totalTransitTime + transitTime
      totalProcessTime := s.totalProcessTime + processTime
      totalLockWaitTime := s.totalLockWaitTime + lockWaitTime
      totalElementsInPacket := s.totalElementsInPacket + editsInPacket
      totalPackets := s.totalPackets + 1
      incomingLastSequence := newLast
      missingSequenceNumbers := pruneMissing newLast newMissing }

/-- Fold `trackInboundPacket` over a list of sequence numbers (the timing
arguments are irrelevant to sequence state and set to zero). -/
def runTrack (s : SingleSenderStats) (l : List Nat) : SingleSenderStats :=
  l.foldl (fun st q => st.trackInboundPacket q 0 0 0 0) s

/-- One `observe` call with all of its arguments. -/
structure ObserveCall where
  seq : Nat
  transitTime : Nat
  edits : Nat
  processTime : Nat
  lockWaitTime : Nat

/-- Fold `trackInboundPacket` over a list of full observe calls. -/
def runObserve (s : SingleSenderStats) (l : List ObserveCall) : SingleSenderStats :=
  l.foldl
    (fun st c => st.trackInboundPacket c.seq c.transitTime c.edits c.processTime c.lockWaitTime) s

/-- A call with sequence number `q` on state `s` takes the early `return` of
the unreasonable-gap case (line 310): there is a previous packet, and the
absolute gap to the expected sequence lies strictly between
`MAX_REASONABLE_SEQUENCE_GAP` and `UINT16_RANGE - MAX_REASONABLE_SEQUENCE_GAP`. -/
def isRejected (s : SingleSenderStats) (q : Nat) : Prop :=
  s.totalPackets ≠ 0 ∧
  MAX_REASONABLE_SEQUENCE_GAP <
    |(q : Int) - (((s.incomingLastSequence + 1) % 65536 : Nat) : Int)| ∧
  |(q : Int) - (((s.incomingLastSequence + 1) % 65536 : Nat) : Int)| <
    UINT16_RANGE - MAX_REASONABLE_SEQUENCE_GAP

instance (s : SingleSenderStats) (q : Nat) : Decidable (isRejected s q) := by
  unfold isRejected; infer_instance

/-- Number of calls in `l` (started from state `s`) that hit the
unreasonable-gap rejection. -/
def countRejected (s : SingleSenderStats) : List ObserveCall → Nat
  | [] => 0
  | c :: rest =>
      (if isRejected s c.seq then 1 else 0) +
        countRejected
          (s.trackInboundPacket c.seq c.transitTime c.edits c.processTime c.lockWaitTime) rest

lemma expectedSeq_of_totalPackets_ne (s : SingleSenderStats) (q : Nat)
    (h0 : s.totalPackets ≠ 0) :
    expectedSeq s q = (s.incomingLastSequence + 1) % 65536 := if_neg h0

lemma correctedPair_reject (i e : Int)
    (h1 : MAX_REASONABLE_SEQUENCE_GAP < |i - e|)
    (h2 : |i - e| < UINT16_RANGE - MAX_REASONABLE_SEQUENCE_GAP) :
    correctedPair i e = none := by
  unfold correctedPair
  rw [if_neg (not_le.mpr h2), if_pos h1]

lemma correctedPair_small (i e : Int) (h : |i - e| ≤ MAX_REASONABLE_SEQUENCE_GAP) :
    correctedPair i e = some (i, e) := by
  have hne : ¬ (UINT16_RANGE - MAX_REASONABLE_SEQUENCE_GAP ≤ |i - e|) := by
    have e1 : UINT16_RANGE - MAX_REASONABLE_SEQUENCE_GAP = (64536 : Int) := rfl
    have e2 : MAX_REASONABLE_SEQUENCE_GAP = (1000 : Int) := rfl
    rw [e2] at h
    rw [e1]
    omega
  unfold correctedPair
  rw [if_neg hne, if_neg (not_lt.mpr h)]

lemma correctedPair_wrapHigh (i e : Int)
    (h : UINT16_RANGE - MAX_REASONABLE_SEQUENCE_GAP ≤ |i - e|) (hlt : e < i) :
    correctedPair i e = some (i - UINT16_RANGE, e) := by
  unfold correctedPair
  rw [if_pos h, if_pos hlt]

lemma correctedPair_wrapLow (i e : Int)
    (h : UINT16_RANGE - MAX_REASONABLE_SEQUENCE_GAP ≤ |i - e|) (hge : ¬ e < i) :
    correctedPair i e = some (i, e - UINT16_RANGE) := by
  unfold correctedPair
  rw [if_pos h, if_neg hge]

/-- If the gap conditions of the rejection case hold, the dispatch returns
`none`. -/
lemma seqDispatch_none_of_rejected (s : SingleSenderStats) (q : Nat)
    (h : isRejected s q) : seqDispatch s q = none := by
  obtain ⟨h0, h1, h2⟩ := h
  have hE : expectedSeq s q = (s.incomingLastSequence + 1) % 65536 :=
    expectedSeq_of_totalPackets_ne s q h0
  have hq : q ≠ expectedSeq s q := by
    rw [hE]
    intro hqe
    rw [hqe] at h1
    simp only [sub_self, abs_zero] at h1
    exact absurd h1 (by unfold MAX_REASONABLE_SEQUENCE_GAP; omega)
  unfold seqDispatch
  rw [if_neg hq, hE, correctedPair_reject _ _ h1 h2]
  rfl

/-- Conversely, the dispatch returns `none` only in the rejection case. -/
lemma isRejected_of_seqDispatch_none (s : SingleSenderStats) (q : Nat)
    (h : seqDispatch s q = none) : isRejected s q := by
  unfold seqDispatch at h
  by_cases hq : q = expectedSeq s q
  · rw [if_pos hq] at h
    exact absurd h (by simp)
  · rw [if_neg hq] at h
    have h0 : s.totalPackets ≠ 0 := by
      intro h0
      exact hq (by rw [expectedSeq, if_pos h0])
    have hE : expectedSeq s q = (s.incomingLastSequence + 1) % 65536 :=
      expectedSeq_of_totalPackets_ne s q h0
    rw [hE] at h
    by_cases hbig : UINT16_RANGE - MAX_REASONABLE_SEQUENCE_GAP ≤
        |(q : Int) - (((s.incomingLastSequence + 1) % 65536 : Nat) : Int)|
    · by_cases hlt : (((s.incomingLastSequence + 1) % 65536 : Nat) : Int) < q
      · rw [correctedPair_wrapHigh _ _ hbig hlt] at h
        simp only [applyCorrected] at h
        split at h <;> simp_all
      · rw [correctedPair_wrapLow _ _ hbig hlt] at h
        simp only [applyCorrected] at h
        split at h <;> simp_all
    · by_cases hmid : MAX_REASONABLE_SEQUENCE_GAP <
          |(q : Int) - (((s.incomingLastSequence + 1) % 65536 : Nat) : Int)|
      · exact ⟨h0, hmid, lt_of_not_le hbig⟩
      · rw [correctedPair_small _ _ (not_lt.mp hmid)] at h
        simp only [applyCorrected] at h
        split at h <;> simp_all

/-- A rejected call leaves the state completely unchanged: the early `return`
precedes the pruning pass and all counter updates. -/
lemma track_rejected_eq (s : SingleSenderStats) (q t e p l : Nat)
    (h : isRejected s q) : s.trackInboundPacket q t e p l = s := by
  unfold SingleSenderStats.trackInboundPacket
  rw [seqDispatch_none_of_rejected s q h]

/-- An accepted call produces the record of lines 333-363. -/
lemma track_of_seqDispatch_some (s : SingleSenderStats) (q t e p l : Nat)
    (newLast : Nat) (newMissing : Finset Nat)
    (h : seqDispatch s q = some (newLast, newMissing)) :
    s.trackInboundPacket q t e p l =
      { totalTransitTime := s.totalTransitTime + t
        totalProcessTime := s.totalProcessTime + p
        totalLockWaitTime := s.totalLockWaitTime + l
        totalElementsInPacket := s.totalElementsInPacket + e
        totalPackets := s.totalPackets + 1
        incomingLastSequence := newLast
        missingSequenceNumbers := pruneMissing newLast newMissing } := by
  unfold SingleSenderStats.trackInboundPacket
  rw [h]

/-- A non-rejected call increments `totalPackets` by exactly one. -/
lemma track_accepted_totalPackets (s : SingleSenderStats) (q t e p l : Nat)
    (h : ¬ isRejected s q) :
    (s.trackInboundPacket q t e p l).totalPackets = s.totalPackets + 1 := by
  cases hd : seqDispatch s q with
  | none => exact absurd (isRejected_of_seqDispatch_none s q hd) h
  | some pair =>
      obtain ⟨nl, nm⟩ := pair
      rw [track_of_seqDispatch_some s q t e p l nl nm hd]

/-- `totalPackets` evolution of a single call. -/
lemma track_totalPackets (s : SingleSenderStats) (q t e p l : Nat) :
    (s.trackInboundPacket q t e p l).totalPackets =
      if isRejected s q then s.totalPackets else s.totalPackets + 1 := by
  by_cases h : isRejected s q
  · rw [if_pos h, track_rejected_eq s q t e p l h]
  · rw [if_neg h, track_accepted_totalPackets s q t e p l h]

lemma runObserve_totalPackets (l : List ObserveCall) :
    ∀ s : SingleSenderStats,
      (runObserve s l).totalPackets + countRejected s l = s.totalPackets + l.length := by
  induction l with
  | nil => intro s; simp [runObserve, countRejected]
  | cons c rest ih =>
      intro s
      show (runObserve (s.trackInboundPacket c.seq c.transitTime c.edits c.processTime
        c.lockWaitTime) rest).totalPackets + countRejected s (c :: rest) =
          s.totalPackets + (c :: rest).length
      rw [countRejected]
      have := ih (s.trackInboundPacket c.seq c.transitTime c.edits c.processTime c.lockWaitTime)
      rw [track_totalPackets] at this
      by_cases h : isRejected s c.seq
      · rw [if_pos h] at this ⊢; simp only [List.length_cons]; omega
      · rw [if_neg h] at this ⊢; simp only [List.length_cons]; omega

lemma countRejected_le_length (l : List ObserveCall) :
    ∀ s : SingleSenderStats, countRejected s l ≤ l.length := by
  induction l with
  | nil => intro s; simp [countRejected]
  | cons c rest ih =>
      intro s
      rw [countRejected]
      have := ih (s.trackInboundPacket c.seq c.transitTime c.edits c.processTime c.lockWaitTime)
      simp only [List.length_cons]
      split <;> omega

/-- C4: for every sequence of observe calls on a fresh tracker, the final
`totalPackets` counter equals the number of calls minus the number of calls
rejected for an unreasonable sequence gap. -/
theorem C4_totalPackets_eq_calls_minus_rejected (l : List ObserveCall) :
    (runObserve .init l).totalPackets = l.length - countRejected .init l := by
  have h1 := runObserve_totalPackets l .init
  have h2 := countRejected_le_length l .init
  have h3 : SingleSenderStats.init.totalPackets = 0 := rfl
  omega

/-- C5: on a fresh tracker, observing `65534` then `1` infers rollover and
ends with `last_sequence = 1` and `missing = {65535, 0}`. -/
theorem C5_rollover_early :
    (runTrack .init [65534, 1]).incomingLastSequence = 1 ∧
      (runTrack .init [65534, 1]).missingSequenceNumbers = {65535, 0} := by
  constructor <;> decide

/-- C3 counterexample: observing `100` then `5000` leaves the tracker's
`totalPackets` at `1`, not `2` — the early `return` of the rejection case
precedes the counter updates, so a rejected call does not update any
counters. -/
theorem C3_counterexample :
    ¬ ((runTrack .init [100, 5000]).incomingLastSequence = 100 ∧
        (runTrack .init [100, 5000]).missingSequenceNumbers = ∅ ∧
        (runTrack .init [100, 5000]).totalPackets = 2) := by
  decide

/-- C3 (amended): a call whose gap to the expected sequence lies strictly
between `MAX_REASONABLE_SEQUENCE_GAP` and
`UINT16_RANGE - MAX_REASONABLE_SEQUENCE_GAP` leaves the whole tracker state
unchanged — `last_sequence` and `missing`, but also every counter
(`total_packets`, `total_transit_us`, `total_process_us`,
`total_lock_wait_us`, `total_elements`). -/
theorem C3_rejected_call_is_noop (s : SingleSenderStats) (q t e p l : Nat)
    (h0 : s.totalPackets ≠ 0)
    (h1 : MAX_REASONABLE_SEQUENCE_GAP <
      |(q : Int) - (((s.incomingLastSequence + 1) % 65536 : Nat) : Int)|)
    (h2 : |(q : Int) - (((s.incomingLastSequence + 1) % 65536 : Nat) : Int)| <
      UINT16_RANGE - MAX_REASONABLE_SEQUENCE_GAP) :
    s.trackInboundPacket q t e p l = s :=
  track_rejected_eq s q t e p l ⟨h0, h1, h2⟩

/-- C3 witness: the rejection no-op applied to the concrete scenario state
(after observing `100`) and the concrete rejected sequence `5000`. -/
theorem C3_witness :
    (runTrack .init [100]).trackInboundPacket 5000 3 4 5 6 = runTrack .init [100] :=
  C3_rejected_call_is_noop (runTrack .init [100]) 5000 3 4 5 6
    (by decide) (by decide) (by decide)

/-! ## Missing-set bound (C2) -/

/-- Backward distance from `last` to `m` in the 16-bit modular order:
how many steps behind `last` the number `m` lies. -/
def modDist (last m : Nat) : Int := (((last : Int) - m) % 65536)

lemma missingRangeSet_mem_lt (exp inc : Int) (hinc : inc ≤ 65536) :
    ∀ x ∈ missingRangeSet exp inc, x < 65536 := by
  intro x hx
  simp only [missingRangeSet, Finset.mem_image, Finset.mem_Ico] at hx
  obtain ⟨m, ⟨hm1, hm2⟩, rfl⟩ := hx
  have hU : UINT16_RANGE = (65536 : Int) := rfl
  rw [hU]
  split <;> omega

lemma pruneMissing_subset (lastSeq : Nat) (missing : Finset Nat) :
    pruneMissing lastSeq missing ⊆ missing := by
  unfold pruneMissing
  split_ifs <;> first | exact Finset.filter_subset _ _ | exact subset_rfl

/-- Exhaustive outcomes of the rollover-correction step. -/
lemma correctedPair_cases (i e : Int) :
    correctedPair i e = none ∨ correctedPair i e = some (i, e) ∨
      correctedPair i e = some (i - UINT16_RANGE, e) ∨
      correctedPair i e = some (i, e - UINT16_RANGE) := by
  unfold correctedPair
  split_ifs <;> simp

lemma expectedSeq_lt (s : SingleSenderStats) (q : Nat) (hq : q < 65536) :
    expectedSeq s q < 65536 := by
  unfold expectedSeq
  split <;> omega

/-- Shape of an accepted dispatch: on time, early (with the inserted range
ending exactly at the incoming number), or late. -/
lemma seqDispatch_some_spec (s : SingleSenderStats) (q : Nat)
    (nl : Nat) (nm : Finset Nat) (hq : q < 65536)
    (h : seqDispatch s q = some (nl, nm)) :
    (nl = q ∧ nm = s.missingSequenceNumbers) ∨
    (∃ exp : Int, -65536 ≤ exp ∧
      nl = q ∧ nm = s.missingSequenceNumbers ∪ missingRangeSet exp (q : Int)) ∨
    (nl = s.incomingLastSequence ∧ nm = s.missingSequenceNumbers.erase q) := by
  have hU : UINT16_RANGE = (65536 : Int) := rfl
  unfold seqDispatch at h
  by_cases hqe : q = expectedSeq s q
  · rw [if_pos hqe, Option.some_inj, Prod.mk.injEq] at h
    exact Or.inl ⟨h.1.symm, h.2.symm⟩
  · rw [if_neg hqe] at h
    have hE : (0 : Int) ≤ ((expectedSeq s q : Nat) : Int) := Int.ofNat_nonneg _
    have hE2 : ((expectedSeq s q : Nat) : Int) < 65536 := by
      exact_mod_cast expectedSeq_lt s q hq
    rcases correctedPair_cases (q : Int) ((expectedSeq s q : Nat) : Int) with hc | hc | hc | hc <;>
      rw [hc] at h <;> simp only [applyCorrected] at h
    · exact absurd h (by simp)
    · -- uncorrected pair (q, E)
      by_cases hlt : ((expectedSeq s q : Nat) : Int) < (q : Int)
      · rw [if_pos hlt, Option.some_inj, Prod.mk.injEq] at h
        exact Or.inr (Or.inl ⟨((expectedSeq s q : Nat) : Int), by omega, h.1.symm, h.2.symm⟩)
      · rw [if_neg hlt, Option.some_inj, Prod.mk.injEq] at h
        exact Or.inr (Or.inr ⟨h.1.symm, h.2.symm⟩)
    · -- corrected (q - 65536, E): q - 65536 < 0 ≤ E, always late
      have hlt : ¬ (((expectedSeq s q : Nat) : Int) < (q : Int) - UINT16_RANGE) := by
        rw [hU]; omega
      rw [if_neg hlt, Option.some_inj, Prod.mk.injEq] at h
      exact Or.inr (Or.inr ⟨h.1.symm, h.2.symm⟩)
    · -- corrected (q, E - 65536): E - 65536 < 0 ≤ q, always early
      have hlt : ((expectedSeq s q : Nat) : Int) - UINT16_RANGE < (q : Int) := by
        rw [hU]; omega
      rw [if_pos hlt, Option.some_inj, Prod.mk.injEq] at h
      exact Or.inr (Or.inl ⟨((expectedSeq s q : Nat) : Int) - UINT16_RANGE,
        by rw [hU]; omega, h.1.symm, h.2.symm⟩)

/-- An accepted dispatch produces a `u16`-valued new last sequence and a
missing set of `u16` values, provided the inputs were such. -/
lemma seqDispatch_some_WF (s : SingleSenderStats) (q : Nat)
    (nl : Nat) (nm : Finset Nat) (hq : q < 65536)
    (hlast : s.incomingLastSequence < 65536)
    (hmiss : ∀ m ∈ s.missingSequenceNumbers, m < 65536)
    (hd : seqDispatch s q = some (nl, nm)) :
    nl < 65536 ∧ ∀ m ∈ nm, m < 65536 := by
  constructor
  · rcases seqDispatch_some_spec s q nl nm hq hd with ⟨h1, _⟩ | ⟨_, _, h1, _⟩ | ⟨h1, _⟩ <;>
      omega
  · rcases seqDispatch_some_spec s q nl nm hq hd with ⟨_, h2⟩ | ⟨exp, _, _, h2⟩ | ⟨_, h2⟩
    · intro m hm
      rw [h2] at hm
      exact hmiss m hm
    · subst h2
      intro m hm
      rcases Finset.mem_union.mp hm with hm' | hm'
      · exact hmiss m hm'
      · exact missingRangeSet_mem_lt exp (q : Int) (by omega) m hm'
    · subst h2
      intro m hm
      exact hmiss m (Finset.mem_of_mem_erase hm)

/-- Well-formedness (`u16`-valued fields) is preserved by a call. -/
lemma track_WF (s : SingleSenderStats) (q t e p l : Nat) (hq : q < 65536)
    (hlast : s.incomingLastSequence < 65536)
    (hmiss : ∀ m ∈ s.missingSequenceNumbers, m < 65536) :
    (s.trackInboundPacket q t e p l).incomingLastSequence < 65536 ∧
      ∀ m ∈ (s.trackInboundPacket q t e p l).missingSequenceNumbers, m < 65536 := by
  cases hd : seqDispatch s q with
  | none =>
      unfold SingleSenderStats.trackInboundPacket
      rw [hd]
      exact ⟨hlast, hmiss⟩
  | some pair =>
      obtain ⟨nl, nm⟩ := pair
      rw [track_of_seqDispatch_some s q t e p l nl nm hd]
      obtain ⟨hnl, hnm⟩ := seqDispatch_some_WF s q nl nm hq hlast hmiss hd
      exact ⟨hnl, fun m hm => hnm m (pruneMissing_subset nl nm hm)⟩

/-- What the pruning pass guarantees: either the set is small, or every
remaining element is within `MAX_REASONABLE_SEQUENCE_GAP` behind the last
sequence in the 16-bit modular order. -/
lemma pruneMissing_post (lastSeq : Nat) (missing : Finset Nat)
    (hlast : lastSeq < 65536) (hm : ∀ m ∈ missing, m < 65536) :
    (pruneMissing lastSeq missing).card ≤ MAX_MISSING_SEQUENCE_SIZE ∨
      ∀ m ∈ pruneMissing lastSeq missing,
        modDist lastSeq m < MAX_REASONABLE_SEQUENCE_GAP := by
  have hG : MAX_REASONABLE_SEQUENCE_GAP = (1000 : Int) := rfl
  have hU : UINT16_RANGE = (65536 : Int) := rfl
  unfold pruneMissing
  split_ifs with h1 h2
  · right
    intro m hm'
    rw [Finset.mem_filter] at hm'
    obtain ⟨hm0, hcond⟩ := hm'
    have hb := hm m hm0
    rw [not_or] at hcond
    obtain ⟨hc1, hc2⟩ := hcond
    unfold modDist
    rw [hG] at h2 ⊢
    rw [hG] at hc2
    omega
  · right
    intro m hm'
    rw [Finset.mem_filter] at hm'
    obtain ⟨hm0, hcond⟩ := hm'
    have hb := hm m hm0
    rw [not_and] at hcond
    unfold modDist
    rw [hG] at h2 ⊢
    by_cases hlm : lastSeq < m
    · have := hcond hlm
      rw [hG, hU] at this
      omega
    · omega
  · left
    unfold MAX_MISSING_SEQUENCE_SIZE at h1 ⊢
    omega

/-- The missing-set guarantee of a single call, for any state: an accepted
call ends in the pruning pass, a rejected call changes nothing.  Stated on
the post-state of an accepted call. -/
lemma track_missing_post (s : SingleSenderStats) (q t e p l : Nat)
    (hq : q < 65536) (hlast : s.incomingLastSequence < 65536)
    (hmiss : ∀ m ∈ s.missingSequenceNumbers, m < 65536)
    (hacc : ¬ isRejected s q) :
    (s.trackInboundPacket q t e p l).missingSequenceNumbers.card ≤ MAX_MISSING_SEQUENCE_SIZE ∨
      ∀ m ∈ (s.trackInboundPacket q t e p l).missingSequenceNumbers,
        modDist (s.trackInboundPacket q t e p l).incomingLastSequence m <
          MAX_REASONABLE_SEQUENCE_GAP := by
  cases hd : seqDispatch s q with
  | none => exact absurd (isRejected_of_seqDispatch_none s q hd) hacc
  | some pair =>
      obtain ⟨nl, nm⟩ := pair
      rw [track_of_seqDispatch_some s q t e p l nl nm hd]
      obtain ⟨hnl, hnm⟩ := seqDispatch_some_WF s q nl nm hq hlast hmiss hd
      exact pruneMissing_post nl nm hnl hnm

/-- C2 counterexample: observing `0` then `102` leaves 101 missing sequence
numbers — the pruning pass removes only entries older than
`MAX_REASONABLE_SEQUENCE_GAP`, it does not enforce the size bound. -/
theorem C2_counterexample :
    ¬ ((runTrack .init [0, 102]).missingSequenceNumbers.card ≤ MAX_MISSING_SEQUENCE_SIZE) := by
  decide

/-- C2 (amended): after any observation sequence of `u16` values, the missing
set either has at most `MAX_MISSING_SEQUENCE_SIZE` elements or consists only
of numbers within `MAX_REASONABLE_SEQUENCE_GAP` behind `last_sequence` in the
16-bit modular order (the pruning pass only removes entries older than the
reasonable gap, so the set legitimately exceeds the bound when more than
`MAX_MISSING_SEQUENCE_SIZE` recent numbers are missing). -/
theorem C2_missing_bound_or_window (l : List Nat) (hl : ∀ q ∈ l, q < 65536) :
    (runTrack .init l).missingSequenceNumbers.card ≤ MAX_MISSING_SEQUENCE_SIZE ∨
      ∀ m ∈ (runTrack .init l).missingSequenceNumbers,
        modDist (runTrack .init l).incomingLastSequence m < MAX_REASONABLE_SEQUENCE_GAP := by
  suffices h : ∀ (l : List Nat) (s : SingleSenderStats), (∀ q ∈ l, q < 65536) →
      s.incomingLastSequence < 65536 →
      (∀ m ∈ s.missingSequenceNumbers, m < 65536) →
      (s.missingSequenceNumbers.card ≤ MAX_MISSING_SEQUENCE_SIZE ∨
        ∀ m ∈ s.missingSequenceNumbers,
          modDist s.incomingLastSequence m < MAX_REASONABLE_SEQUENCE_GAP) →
      ((runTrack s l).missingSequenceNumbers.card ≤ MAX_MISSING_SEQUENCE_SIZE ∨
        ∀ m ∈ (runTrack s l).missingSequenceNumbers,
          modDist (runTrack s l).incomingLastSequence m < MAX_REASONABLE_SEQUENCE_GAP) by
    exact h l .init hl (by decide) (by decide) (Or.inl (by decide))
  intro l
  induction l with
  | nil => intro s _ _ _ hdis; exact hdis
  | cons q rest ih =>
      intro s hl hlast hmiss hdis
      have hq : q < 65536 := hl q (List.mem_cons_self q rest)
      have hrest : ∀ x ∈ rest, x < 65536 := fun x hx => hl x (List.mem_cons_of_mem q hx)
      have hWF := track_WF s q 0 0 0 0 hq hlast hmiss
      have hstep : (s.trackInboundPacket q 0 0 0 0).missingSequenceNumbers.card ≤
          MAX_MISSING_SEQUENCE_SIZE ∨
          ∀ m ∈ (s.trackInboundPacket q 0 0 0 0).missingSequenceNumbers,
            modDist (s.trackInboundPacket q 0 0 0 0).incomingLastSequence m <
              MAX_REASONABLE_SEQUENCE_GAP := by
        by_cases hrej : isRejected s q
        · rw [track_rejected_eq s q 0 0 0 0 hrej]
          exact hdis
        · exact track_missing_post s q 0 0 0 0 hq hlast hmiss hrej
      exact ih (s.trackInboundPacket q 0 0 0 0) hrest hWF.1 hWF.2 hstep

/-- C2 witness: the amended bound at the concrete observation sequence
`[0, 102]`, where the missing set has 101 elements but all of them are
within the reasonable window behind `last_sequence = 102`. -/
theorem C2_witness :
    (runTrack .init [0, 102]).missingSequenceNumbers.card ≤ MAX_MISSING_SEQUENCE_SIZE ∨
      ∀ m ∈ (runTrack .init [0, 102]).missingSequenceNumbers,
        modDist (runTrack .init [0, 102]).incomingLastSequence m <
          MAX_REASONABLE_SEQUENCE_GAP :=
  C2_missing_bound_or_window [0, 102] (by decide)

/-! ## Exact characterization of the missing set (C1)

For observation histories whose (conceptual, unbounded) sequence numbers stay
pairwise within `MAX_REASONABLE_SEQUENCE_GAP`, the missing set is exactly the
set of skipped numbers between the first observation and the maximum, reduced
modulo 2¹⁶.  The invariant carried through the fold keeps the conceptual
window `(s0, L)` with the received set `R`. -/

/-- Pruning is the identity on a window set: every element of
`(Ioo s0 L) \ R` reduced mod 2¹⁶ is within the reasonable gap behind
`L' % 65536` whenever `L ≤ L' ≤ s0 + 1000`, so neither filter removes
anything. -/
lemma pruneMissing_window_noop (s0 L L' : Nat) (R : Finset Nat)
    (hLL : L ≤ L') (hwin : L' ≤ s0 + 1000) :
    pruneMissing (L' % 65536) (((Finset.Ioo s0 L) \ R).image (· % 65536)) =
      ((Finset.Ioo s0 L) \ R).image (· % 65536) := by
  have hG : MAX_REASONABLE_SEQUENCE_GAP = (1000 : Int) := rfl
  have hU : UINT16_RANGE = (65536 : Int) := rfl
  unfold pruneMissing
  split_ifs with h1 h2
  · apply Finset.filter_true_of_mem
    intro x hx
    simp only [Finset.mem_image, Finset.mem_sdiff, Finset.mem_Ioo] at hx
    obtain ⟨m, ⟨⟨hm1, hm2⟩, _⟩, rfl⟩ := hx
    rw [hG] at h2 ⊢
    omega
  · apply Finset.filter_true_of_mem
    intro x hx
    simp only [Finset.mem_image, Finset.mem_sdiff, Finset.mem_Ioo] at hx
    obtain ⟨m, ⟨⟨hm1, hm2⟩, _⟩, rfl⟩ := hx
    rw [hG] at h2
    rw [hG, hU]
    omega
  · rfl

/-- The inserted range of an early packet, in conceptual terms: when the
corrected `exp` sits exactly `v - (L+1)` below `v % 65536`, the inserted
set is the skipped range `[L+1, v)` reduced mod 2¹⁶. -/
lemma missingRangeSet_shift (L v : Nat) (exp : Int)
    (hd1 : L + 1 ≤ v) (hd2 : v ≤ L + 1000)
    (hexp : ((v % 65536 : Nat) : Int) - exp = (v : Int) - ((L : Int) + 1)) :
    missingRangeSet exp ((v % 65536 : Nat) : Int) =
      (Finset.Ico (L + 1) v).image (· % 65536) := by
  have hU : UINT16_RANGE = (65536 : Int) := rfl
  ext x
  simp only [missingRangeSet, Finset.mem_image, Finset.mem_Ico]
  constructor
  · rintro ⟨m, ⟨hm1, hm2⟩, rfl⟩
    refine ⟨L + 1 + (m - exp).toNat, ⟨by omega, by omega⟩, ?_⟩
    rw [hU]
    split <;> omega
  · rintro ⟨c, ⟨hc1, hc2⟩, rfl⟩
    refine ⟨exp + ((c : Int) - ((L : Int) + 1)), ⟨by omega, by omega⟩, ?_⟩
    rw [hU]
    split <;> omega

/-- Window bookkeeping for an on-time packet `v = L + 1`: the skipped set is
unchanged once `L+1` is received. -/
lemma window_succ_eq (s0 L : Nat) (R : Finset Nat) (hLR : L ∈ R) :
    Finset.Ioo s0 L \ R = Finset.Ioo s0 (L + 1) \ insert (L + 1) R := by
  ext a
  simp only [Finset.mem_sdiff, Finset.mem_Ioo, Finset.mem_insert, not_or]
  constructor
  · rintro ⟨⟨h1, h2⟩, h3⟩
    exact ⟨⟨h1, by omega⟩, by omega, h3⟩
  · rintro ⟨⟨h1, h2⟩, h3, h4⟩
    refine ⟨⟨h1, ?_⟩, h4⟩
    rcases Nat.lt_succ_iff_lt_or_eq.mp h2 with h | rfl
    · exact h
    · exact absurd hLR h4

/-- Window bookkeeping for an early packet `v ≥ L + 1`: attaching the skipped
range `[L+1, v)` extends the window to `(s0, v)` with `v` received. -/
lemma window_union_eq (s0 L v : Nat) (R : Finset Nat)
    (hs0R : s0 ∈ R) (hLR : L ∈ R) (hRle : ∀ a ∈ R, a ≤ L) (hLv : L + 1 ≤ v) :
    (Finset.Ioo s0 L \ R) ∪ Finset.Ico (L + 1) v =
      Finset.Ioo s0 v \ insert v R := by
  have hs0L : s0 ≤ L := hRle s0 hs0R
  ext a
  simp only [Finset.mem_union, Finset.mem_sdiff, Finset.mem_Ioo, Finset.mem_Ico,
    Finset.mem_insert, not_or]
  constructor
  · rintro (⟨⟨h1, h2⟩, h3⟩ | ⟨h1, h2⟩)
    · exact ⟨⟨h1, by omega⟩, by omega, h3⟩
    · refine ⟨⟨by omega, h2⟩, by omega, fun hR => ?_⟩
      have := hRle a hR
      omega
  · rintro ⟨⟨h1, h2⟩, h3, h4⟩
    by_cases hL : a < L
    · exact Or.inl ⟨⟨h1, hL⟩, h4⟩
    · by_cases haL : a = L
      · exact absurd (haL ▸ hLR) h4
      · exact Or.inr ⟨by omega, h2⟩

/-- Window bookkeeping for a late packet `v ∈ [L-999, L]`: erasing
`v % 65536` from the window image is exactly receiving `v`, because the
reduction is injective on the window. -/
lemma erase_image_eq (s0 L v : Nat) (R : Finset Nat)
    (hwin : L ≤ s0 + 1000) (hv1 : L ≤ v + 999) (hv2 : v ≤ L) :
    (((Finset.Ioo s0 L) \ R).image (· % 65536)).erase (v % 65536) =
      ((Finset.Ioo s0 L) \ (insert v R)).image (· % 65536) := by
  ext x
  simp only [Finset.mem_erase, Finset.mem_image, Finset.mem_sdiff, Finset.mem_Ioo,
    Finset.mem_insert, not_or]
  constructor
  · rintro ⟨hne, m, ⟨⟨hm1, hm2⟩, hmR⟩, rfl⟩
    refine ⟨m, ⟨⟨hm1, hm2⟩, ?_, hmR⟩, rfl⟩
    intro hmv
    exact hne (by rw [hmv])
  · rintro ⟨m, ⟨⟨hm1, hm2⟩, hmv, hmR⟩, rfl⟩
    refine ⟨?_, m, ⟨⟨hm1, hm2⟩, hmR⟩, rfl⟩
    intro heq
    -- both m and v lie in the width-1000 window, so equal reductions force m = v
    omega

/-- Window bookkeeping for a rejected packet `v = L - 1000 ≤ s0`: a number at
or below the window base changes nothing. -/
lemma window_insert_low_eq (s0 L v : Nat) (R : Finset Nat) (hv : v ≤ s0) :
    Finset.Ioo s0 L \ R = Finset.Ioo s0 L \ insert v R := by
  ext a
  simp only [Finset.mem_sdiff, Finset.mem_Ioo, Finset.mem_insert, not_or]
  constructor
  · rintro ⟨⟨h1, h2⟩, h3⟩
    exact ⟨⟨h1, h2⟩, by omega, h3⟩
  · rintro ⟨⟨h1, h2⟩, _, h4⟩
    exact ⟨⟨h1, h2⟩, h4⟩

/-- One step of the exactness invariant: observing the 16-bit reduction of a
conceptual value `v` within `MAX_REASONABLE_SEQUENCE_GAP` of everything seen
so far updates the window `(s0, L) \ R` to `(s0, max L v) \ insert v R`. -/
lemma C1_step (s0 L v : Nat) (R : Finset Nat) (st : SingleSenderStats)
    (t e p l : Nat)
    (hTP : st.totalPackets ≠ 0)
    (hL : st.incomingLastSequence = L % 65536)
    (hM : st.missingSequenceNumbers = ((Finset.Ioo s0 L) \ R).image (· % 65536))
    (hs0R : s0 ∈ R) (hLR : L ∈ R) (hRle : ∀ a ∈ R, a ≤ L)
    (hwin : L ≤ s0 + 1000)
    (hvL1 : (v : Int) - L ≤ 1000) (hvL2 : (L : Int) - v ≤ 1000)
    (hvs0 : (v : Int) - s0 ≤ 1000) :
    (st.trackInboundPacket (v % 65536) t e p l).totalPackets ≠ 0 ∧
    (st.trackInboundPacket (v % 65536) t e p l).incomingLastSequence = (max L v) % 65536 ∧
    (st.trackInboundPacket (v % 65536) t e p l).missingSequenceNumbers =
      ((Finset.Ioo s0 (max L v)) \ (insert v R)).image (· % 65536) := by
  have hG : MAX_REASONABLE_SEQUENCE_GAP = (1000 : Int) := rfl
  have hU : UINT16_RANGE = (65536 : Int) := rfl
  have hs0L : s0 ≤ L := hRle s0 hs0R
  have hb : expectedSeq st (v % 65536) = (L + 1) % 65536 := by
    rw [expectedSeq_of_totalPackets_ne st (v % 65536) hTP, hL]
    omega
  by_cases hA : v = L + 1
  · -- on time
    subst hA
    have hab : (L + 1) % 65536 = expectedSeq st ((L + 1) % 65536) := by rw [hb]
    have hdisp : seqDispatch st ((L + 1) % 65536) =
        some ((L + 1) % 65536, st.missingSequenceNumbers) := by
      unfold seqDispatch
      rw [if_pos hab]
    rw [track_of_seqDispatch_some st _ t e p l _ _ hdisp]
    refine ⟨by simp, by simp [Nat.max_eq_right (Nat.le_succ L)], ?_⟩
    show pruneMissing ((L + 1) % 65536) st.missingSequenceNumbers = _
    rw [hM, window_succ_eq s0 L R hLR, Nat.max_eq_right (Nat.le_succ L),
      pruneMissing_window_noop s0 (L + 1) (L + 1) (insert (L + 1) R) le_rfl (by omega)]
  · by_cases hB : L + 2 ≤ v
    · -- early: v ∈ [L+2, L+1000]
      have hvle : v ≤ L + 1000 := by omega
      have hab : v % 65536 ≠ expectedSeq st (v % 65536) := by rw [hb]; omega
      have hsplit :
          ((v % 65536 : Nat) : Int) - (((L + 1) % 65536 : Nat) : Int) =
            (v : Int) - ((L : Int) + 1) ∨
          ((v % 65536 : Nat) : Int) - (((L + 1) % 65536 : Nat) : Int) =
            (v : Int) - ((L : Int) + 1) - 65536 := by
        omega
      have hmax : max L v = v := Nat.max_eq_right (by omega)
      rcases hsplit with hs | hs
      · -- no wraparound between expected and incoming
        have hcp : correctedPair ((v % 65536 : Nat) : Int) (((L + 1) % 65536 : Nat) : Int) =
            some (((v % 65536 : Nat) : Int), (((L + 1) % 65536 : Nat) : Int)) :=
          correctedPair_small _ _ (by rw [hG, hs, abs_le]; omega)
        have hdisp : seqDispatch st (v % 65536) =
            some (v % 65536, st.missingSequenceNumbers ∪
              missingRangeSet (((L + 1) % 65536 : Nat) : Int) ((v % 65536 : Nat) : Int)) := by
          unfold seqDispatch
          rw [if_neg hab, hb, hcp]
          simp only [applyCorrected]
          rw [if_pos (by omega)]
        rw [track_of_seqDispatch_some st _ t e p l _ _ hdisp]
        refine ⟨by simp, by simp [hmax], ?_⟩
        show pruneMissing (v % 65536) _ = _
        rw [hM, missingRangeSet_shift L v _ (by omega) hvle (by omega),
          ← Finset.image_union, window_union_eq s0 L v R hs0R hLR hRle (by omega), hmax,
          pruneMissing_window_noop s0 v v (insert v R) le_rfl (by omega)]
      · -- rollover inferred: expected is corrected downwards
        have hcp : correctedPair ((v % 65536 : Nat) : Int) (((L + 1) % 65536 : Nat) : Int) =
            some (((v % 65536 : Nat) : Int), (((L + 1) % 65536 : Nat) : Int) - UINT16_RANGE) :=
          correctedPair_wrapLow _ _ (by rw [hG, hU, hs, le_abs]; omega) (by omega)
        have hdisp : seqDispatch st (v % 65536) =
            some (v % 65536, st.missingSequenceNumbers ∪
              missingRangeSet ((((L + 1) % 65536 : Nat) : Int) - UINT16_RANGE)
                ((v % 65536 : Nat) : Int)) := by
          unfold seqDispatch
          rw [if_neg hab, hb, hcp]
          simp only [applyCorrected]
          rw [if_pos (by rw [hU]; omega)]
        rw [track_of_seqDispatch_some st _ t e p l _ _ hdisp]
        refine ⟨by simp, by simp [hmax], ?_⟩
        show pruneMissing (v % 65536) _ = _
        rw [hM, missingRangeSet_shift L v _ (by omega) hvle (by rw [hU]; omega),
          ← Finset.image_union, window_union_eq s0 L v R hs0R hLR hRle (by omega), hmax,
          pruneMissing_window_noop s0 v v (insert v R) le_rfl (by omega)]
    · by_cases hD : v + 1000 = L
      · -- unreasonable gap: rejected, state unchanged
        have hab : v % 65536 ≠ expectedSeq st (v % 65536) := by rw [hb]; omega
        have hsplit :
            ((v % 65536 : Nat) : Int) - (((L + 1) % 65536 : Nat) : Int) = -1001 ∨
            ((v % 65536 : Nat) : Int) - (((L + 1) % 65536 : Nat) : Int) = 64535 := by
          omega
        have hcp : correctedPair ((v % 65536 : Nat) : Int) (((L + 1) % 65536 : Nat) : Int) =
            none := by
          rcases hsplit with hs | hs <;>
            exact correctedPair_reject _ _ (by rw [hG, hs, lt_abs]; omega)
              (by rw [hG, hU, hs, abs_lt]; omega)
        have hdisp : seqDispatch st (v % 65536) = none := by
          unfold seqDispatch
          rw [if_neg hab, hb, hcp]
          rfl
        have hid : st.trackInboundPacket (v % 65536) t e p l = st := by
          unfold SingleSenderStats.trackInboundPacket
          rw [hdisp]
        rw [hid]
        have hmax : max L v = L := Nat.max_eq_left (by omega)
        refine ⟨hTP, by rw [hL, hmax], ?_⟩
        rw [hM, hmax, window_insert_low_eq s0 L v R (by omega)]
      · -- late: v ∈ [L-999, L]
        have hvge : L ≤ v + 999 := by omega
        have hvleL : v ≤ L := by omega
        have hab : v % 65536 ≠ expectedSeq st (v % 65536) := by rw [hb]; omega
        have hsplit :
            ((v % 65536 : Nat) : Int) - (((L + 1) % 65536 : Nat) : Int) =
              (v : Int) - ((L : Int) + 1) ∨
            ((v % 65536 : Nat) : Int) - (((L + 1) % 65536 : Nat) : Int) =
              (v : Int) - ((L : Int) + 1) + 65536 := by
          omega
        have hmax : max L v = L := Nat.max_eq_left hvleL
        have hdisp : seqDispatch st (v % 65536) =
            some (st.incomingLastSequence, st.missingSequenceNumbers.erase (v % 65536)) := by
          rcases hsplit with hs | hs
          · have hcp : correctedPair ((v % 65536 : Nat) : Int)
                (((L + 1) % 65536 : Nat) : Int) =
                some (((v % 65536 : Nat) : Int), (((L + 1) % 65536 : Nat) : Int)) :=
              correctedPair_small _ _ (by rw [hG, hs, abs_le]; omega)
            unfold seqDispatch
            rw [if_neg hab, hb, hcp]
            simp only [applyCorrected]
            rw [if_neg (by omega)]
          · have hcp : correctedPair ((v % 65536 : Nat) : Int)
                (((L + 1) % 65536 : Nat) : Int) =
                some (((v % 65536 : Nat) : Int) - UINT16_RANGE, (((L + 1) % 65536 : Nat) : Int)) :=
              correctedPair_wrapHigh _ _ (by rw [hG, hU, hs, le_abs]; omega) (by omega)
            unfold seqDispatch
            rw [if_neg hab, hb, hcp]
            simp only [applyCorrected]
            rw [if_neg (by rw [hU]; omega)]
        rw [track_of_seqDispatch_some st _ t e p l _ _ hdisp]
        refine ⟨by simp, by simp [hmax, hL], ?_⟩
        show pruneMissing st.incomingLastSequence _ = _
        rw [hM, erase_image_eq s0 L v R hwin hvge hvleL, hmax, hL,
          pruneMissing_window_noop s0 L L (insert v R) le_rfl hwin]

/-- The exactness invariant, folded over the remaining observations. -/
lemma C1_ind (s0 : Nat) (rest : List Nat) :
    ∀ (L : Nat) (R : Finset Nat) (st : SingleSenderStats),
      (∀ x, (x ∈ R ∨ x ∈ rest) → ∀ y, (y ∈ R ∨ y ∈ rest) → (x : Int) - y ≤ 1000) →
      st.totalPackets ≠ 0 →
      st.incomingLastSequence = L % 65536 →
      st.missingSequenceNumbers = ((Finset.Ioo s0 L) \ R).image (· % 65536) →
      s0 ∈ R → L ∈ R → (∀ a ∈ R, a ≤ L) →
      (runTrack st (rest.map (· % 65536))).missingSequenceNumbers =
        ((Finset.Ioo s0 (rest.foldl max L)) \ (R ∪ rest.toFinset)).image (· % 65536) := by
  induction rest with
  | nil =>
      intro L R st _ _ _ hM _ _ _
      simpa using hM
  | cons v rest ih =>
      intro L R st hcomb hTP hL hM hs0R hLR hRle
      have hmemv : v ∈ R ∨ v ∈ v :: rest := Or.inr (List.mem_cons_self v rest)
      have hmemL : L ∈ R ∨ L ∈ v :: rest := Or.inl hLR
      have hmems0 : s0 ∈ R ∨ s0 ∈ v :: rest := Or.inl hs0R
      have hwin : L ≤ s0 + 1000 := by
        have := hcomb L hmemL s0 hmems0
        omega
      obtain ⟨hTP', hL', hM'⟩ :=
        C1_step s0 L v R st 0 0 0 0 hTP hL hM hs0R hLR hRle hwin
          (hcomb v hmemv L hmemL) (hcomb L hmemL v hmemv) (hcomb v hmemv s0 hmems0)
      have hs0R' : s0 ∈ insert v R := Finset.mem_insert_of_mem hs0R
      have hLR' : max L v ∈ insert v R := by
        rcases max_choice L v with h | h <;> rw [h]
        · exact Finset.mem_insert_of_mem hLR
        · exact Finset.mem_insert_self v R
      have hRle' : ∀ a ∈ insert v R, a ≤ max L v := by
        intro a ha
        rcases Finset.mem_insert.mp ha with rfl | haR
        · exact le_max_right L a
        · exact le_trans (hRle a haR) (le_max_left L v)
      have hcomb' : ∀ x, (x ∈ insert v R ∨ x ∈ rest) →
          ∀ y, (y ∈ insert v R ∨ y ∈ rest) → (x : Int) - y ≤ 1000 := by
        intro x hx y hy
        apply hcomb
        · rcases hx with hx | hx
          · rcases Finset.mem_insert.mp hx with rfl | hx
            · exact Or.inr (List.mem_cons_self x rest)
            · exact Or.inl hx
          · exact Or.inr (List.mem_cons_of_mem v hx)
        · rcases hy with hy | hy
          · rcases Finset.mem_insert.mp hy with rfl | hy
            · exact Or.inr (List.mem_cons_self y rest)
            · exact Or.inl hy
          · exact Or.inr (List.mem_cons_of_mem v hy)
      have hstep : runTrack st ((v :: rest).map (· % 65536)) =
          runTrack (st.trackInboundPacket (v % 65536) 0 0 0 0) (rest.map (· % 65536)) := rfl
      rw [hstep,
        ih (max L v) (insert v R) _ hcomb' hTP' hL' hM' hs0R' hLR' hRle']
      congr 2
      rw [List.toFinset_cons, Finset.insert_union, Finset.union_insert]

/-- C1: for every nonempty sequence of conceptual sequence numbers that are
pairwise within `MAX_REASONABLE_SEQUENCE_GAP` of each other, observing their
16-bit reductions in order leaves the tracker's missing set equal to the set
of numbers in the expected range (strictly between the first observation and
the maximum) that were never received, reduced modulo 2¹⁶. -/
theorem C1_missing_exact (s0 : Nat) (rest : List Nat)
    (hpair : ∀ x ∈ s0 :: rest, ∀ y ∈ s0 :: rest,
      (x : Int) - y ≤ MAX_REASONABLE_SEQUENCE_GAP) :
    (runTrack .init ((s0 :: rest).map (· % 65536))).missingSequenceNumbers =
      ((Finset.Ioo s0 (rest.foldl max s0)) \ (s0 :: rest).toFinset).image (· % 65536) := by
  have hG : MAX_REASONABLE_SEQUENCE_GAP = (1000 : Int) := rfl
  -- the first call is always on time and establishes the base invariant
  have hd : seqDispatch .init (s0 % 65536) = some (s0 % 65536, ∅) := by
    unfold seqDispatch expectedSeq
    have h0 : SingleSenderStats.init.totalPackets = 0 := rfl
    rw [if_pos h0, if_pos rfl]
    rfl
  have hfirst : SingleSenderStats.init.trackInboundPacket (s0 % 65536) 0 0 0 0 =
      { totalTransitTime := 0, totalProcessTime := 0, totalLockWaitTime := 0
        totalElementsInPacket := 0, totalPackets := 1
        incomingLastSequence := s0 % 65536
        missingSequenceNumbers := pruneMissing (s0 % 65536) ∅ } :=
    track_of_seqDispatch_some _ _ 0 0 0 0 _ _ hd
  have hprune : pruneMissing (s0 % 65536) ∅ = ∅ := by
    unfold pruneMissing
    rw [if_neg (by simp [MAX_MISSING_SEQUENCE_SIZE])]
  have hstep : runTrack .init ((s0 :: rest).map (· % 65536)) =
      runTrack (SingleSenderStats.init.trackInboundPacket (s0 % 65536) 0 0 0 0)
        (rest.map (· % 65536)) := rfl
  rw [hstep, C1_ind s0 rest s0 {s0} _
    (by
      intro x hx y hy
      have hx' : x ∈ s0 :: rest := by
        rcases hx with hx | hx
        · rw [Finset.mem_singleton] at hx
          exact hx ▸ List.mem_cons_self s0 rest
        · exact List.mem_cons_of_mem s0 hx
      have hy' : y ∈ s0 :: rest := by
        rcases hy with hy | hy
        · rw [Finset.mem_singleton] at hy
          exact hy ▸ List.mem_cons_self s0 rest
        · exact List.mem_cons_of_mem s0 hy
      have := hpair x hx' y hy'
      omega)
    (by rw [hfirst]; simp)
    (by rw [hfirst])
    (by rw [hfirst]; simp [hprune])
    (Finset.mem_singleton_self s0) (Finset.mem_singleton_self s0)
    (fun a ha => le_of_eq (Finset.mem_singleton.mp ha))]
  congr 2
  rw [List.toFinset_cons]
  ext a
  simp [or_comm]

/-- C1 witness: the exact-missing characterization applied to the concrete
history `10, 13, 11`, whose pairwise gaps are at most 3. -/
theorem C1_witness :
    (runTrack .init (([10, 13, 11] : List Nat).map (· % 65536))).missingSequenceNumbers =
      ((Finset.Ioo 10 (([13, 11] : List Nat).foldl max 10)) \
        ([10, 13, 11] : List Nat).toFinset).image (· % 65536) :=
  C1_missing_exact 10 [13, 11] (by decide)

/-! ## NackEmitter packet building (C6, sendNackPackets lines 226-259) -/

/-- `numSequenceNumbersRoomFor` (line 239):
`(bytesRemaining - sizeof(uint16_t)) / sizeof(unsigned short int)` where
`bytesRemaining = MAX_PACKET_SIZE - numBytesPacketHeader`. -/
def numSequenceNumbersRoomFor (headerBytes maxPacketSize : Nat) : Nat :=
  (maxPacketSize - headerBytes - 2) / 2

/-- Byte length of one NACK datagram: header, `u16` count, `count × u16`
sequence numbers (`dataAt - packet` at line 256). -/
def nackPacketBytes (headerBytes : Nat) (chunk : List Nat) : Nat :=
  headerBytes + 2 + 2 * chunk.length

/-- The chunking loop of `sendNackPackets` (lines 228-259): each datagram
takes `min(numSequenceNumbersAvailable, numSequenceNumbersRoomFor)` sequence
numbers off the iterator.  The C++ loop does not terminate when
`roomFor = 0` (it would write empty packets forever); the `roomFor = 0`
guard below keeps the model total, and the theorems assume `1 ≤ roomFor`. -/
def nackChunks (roomFor : Nat) (seqs : List Nat) : List (List Nat) :=
  if seqs = [] ∨ roomFor = 0 then []
  else
    seqs.take (min seqs.length roomFor) ::
      nackChunks roomFor (seqs.drop (min seqs.length roomFor))
termination_by seqs.length
decreasing_by
  rename_i h
  rw [not_or] at h
  simp only [List.length_drop]
  have h1 : seqs.length ≠ 0 := by
    simpa [List.length_eq_zero] using h.1
  omega

/-- The datagrams built for one live, non-pending sender (lines 226-259),
as lists of the sequence numbers packed into each datagram. -/
def buildNackPacketsForSender (headerBytes maxPacketSize : Nat) (missing : List Nat) :
    List (List Nat) :=
  nackChunks (numSequenceNumbersRoomFor headerBytes maxPacketSize) missing

lemma nackChunks_nil (roomFor : Nat) : nackChunks roomFor [] = [] := by
  unfold nackChunks
  simp

lemma nackChunks_cons (roomFor : Nat) (l : List Nat) (hne : l ≠ []) (hr : roomFor ≠ 0) :
    nackChunks roomFor l =
      l.take (min l.length roomFor) :: nackChunks roomFor (l.drop (min l.length roomFor)) := by
  rw [nackChunks]
  rw [if_neg (by simp [hne, hr])]

lemma nackChunks_flatten_aux (roomFor : Nat) (hr : roomFor ≠ 0) :
    ∀ (n : Nat) (l : List Nat), l.length ≤ n → (nackChunks roomFor l).flatten = l := by
  intro n
  induction n with
  | zero =>
      intro l hl
      have hle : l = [] := List.length_eq_zero.mp (by omega)
      subst hle
      simp [nackChunks_nil]
  | succ n ih =>
      intro l hl
      by_cases hne : l = []
      · subst hne
        simp [nackChunks_nil]
      · rw [nackChunks_cons roomFor l hne hr]
        have hlen : 0 < l.length := List.length_pos.mpr hne
        rw [List.flatten_cons, ih (l.drop (min l.length roomFor)) (by simp; omega)]
        exact List.take_append_drop _ l

lemma nackChunks_getElem_aux (roomFor : Nat) (hr : roomFor ≠ 0) :
    ∀ (n : Nat) (l : List Nat), l.length ≤ n →
      ∀ (i : Nat) (hi : i < (nackChunks roomFor l).length),
        (nackChunks roomFor l)[i].length = min (l.length - roomFor * i) roomFor := by
  intro n
  induction n with
  | zero =>
      intro l hl i hi
      have hle : l = [] := List.length_eq_zero.mp (by omega)
      subst hle
      rw [nackChunks_nil] at hi
      exact absurd hi (by simp)
  | succ n ih =>
      intro l hl i hi
      by_cases hne : l = []
      · subst hne
        rw [nackChunks_nil] at hi
        exact absurd hi (by simp)
      · have hlen : 0 < l.length := List.length_pos.mpr hne
        rw [List.getElem_of_eq (nackChunks_cons roomFor l hne hr) hi]
        rcases i with _ | i
        · rw [List.getElem_cons_zero, List.length_take]
          omega
        · have hi' : i < (nackChunks roomFor (l.drop (min l.length roomFor))).length := by
            rw [nackChunks_cons roomFor l hne hr] at hi
            simpa using hi
          rw [List.getElem_cons_succ]
          rw [ih (l.drop (min l.length roomFor)) (by simp; omega) i hi']
          simp only [List.length_drop]
          by_cases hcase : l.length ≤ roomFor
          · exfalso
            have hnil : l.drop (min l.length roomFor) = [] :=
              List.drop_eq_nil_of_le (by omega)
            rw [hnil, nackChunks_nil] at hi'
            exact absurd hi' (by simp)
          · have hmin : min l.length roomFor = roomFor := by omega
            rw [hmin]
            have hmul : roomFor * (i + 1) = roomFor + roomFor * i := by ring
            omega

/-- C6: for a sender's missing list, each datagram packs
`min(sequences remaining, (MAX_PACKET_SIZE - header - 2) / 2)` sequence
numbers, no datagram exceeds `MAX_PACKET_SIZE` bytes, and the concatenation
of the packed sequence numbers over all datagrams is exactly the missing
list. -/
theorem C6_nack_packing (headerBytes maxPacketSize : Nat) (missing : List Nat)
    (hroom : 1 ≤ numSequenceNumbersRoomFor headerBytes maxPacketSize)
    (hhb : headerBytes + 2 ≤ maxPacketSize) :
    (∀ (i : Nat) (hi : i < (buildNackPacketsForSender headerBytes maxPacketSize missing).length),
      (buildNackPacketsForSender headerBytes maxPacketSize missing)[i].length =
        min (missing.length - numSequenceNumbersRoomFor headerBytes maxPacketSize * i)
          (numSequenceNumbersRoomFor headerBytes maxPacketSize)) ∧
    (∀ c ∈ buildNackPacketsForSender headerBytes maxPacketSize missing,
      nackPacketBytes headerBytes c ≤ maxPacketSize) ∧
    (buildNackPacketsForSender headerBytes maxPacketSize missing).flatten = missing := by
  have hr : numSequenceNumbersRoomFor headerBytes maxPacketSize ≠ 0 := by omega
  refine ⟨?_, ?_, nackChunks_flatten_aux _ hr missing.length missing le_rfl⟩
  · intro i hi
    exact nackChunks_getElem_aux _ hr missing.length missing le_rfl i hi
  · intro c hc
    have hc' : c ∈ nackChunks (numSequenceNumbersRoomFor headerBytes maxPacketSize) missing := hc
    obtain ⟨i, hi, hget⟩ := List.mem_iff_getElem.mp hc'
    have hlen := nackChunks_getElem_aux _ hr missing.length missing le_rfl i hi
    rw [hget] at hlen
    unfold nackPacketBytes
    unfold numSequenceNumbersRoomFor at hlen hroom
    omega

/-- C6 witness: packing at header 24 bytes, MTU 34 bytes (room for 4
sequence numbers) and a 6-element missing list. -/
theorem C6_witness :
    (∀ (i : Nat) (hi : i < (buildNackPacketsForSender 24 34 [5, 6, 7, 8, 9, 10]).length),
      (buildNackPacketsForSender 24 34 [5, 6, 7, 8, 9, 10])[i].length =
        min (([5, 6, 7, 8, 9, 10] : List Nat).length - numSequenceNumbersRoomFor 24 34 * i)
          (numSequenceNumbersRoomFor 24 34)) ∧
    (∀ c ∈ buildNackPacketsForSender 24 34 [5, 6, 7, 8, 9, 10],
      nackPacketBytes 24 c ≤ 34) ∧
    (buildNackPacketsForSender 24 34 [5, 6, 7, 8, 9, 10]).flatten = [5, 6, 7, 8, 9, 10] :=
  C6_nack_packing 24 34 [5, 6, 7, 8, 9, 10] (by decide) (by decide)

/-! ## NackEmitter sweep (C7, sendNackPackets lines 195-263)

The sweep iterates the sender-stats map.  Dead entries are erased (the
`erase` call advances the iterator, line 207); a live entry with pending
packets hits `continue` at line 214 WITHOUT advancing the iterator `i`; a
live entry without pending packets is processed and `i++` runs (line 260).
The loop is modelled with explicit fuel; `none` means the fuel was exhausted
before the iterator reached the end of the map. -/

/-- One reading of the `while (i != end)` loop, fuel-bounded.  State: the
remaining entries `(nodeUUID, missing list)` and the `packetsSent`
accumulator. -/
def sendNackSweep (alive pending : Nat → Bool) (roomFor : Nat) :
    Nat → List (Nat × List Nat) → Nat → Option Nat
  | _, [], acc => some acc
  | 0, _ :: _, _ => none
  | fuel + 1, (u, miss) :: rest, acc =>
      if !alive u then
        -- dead sender: erased, iterator advances (lines 206-209)
        sendNackSweep alive pending roomFor fuel rest acc
      else if pending u then
        -- pending packets: `continue` without advancing `i` (lines 213-215)
        sendNackSweep alive pending roomFor fuel ((u, miss) :: rest) acc
      else
        -- build and send this sender's datagrams, then `i++` (lines 217-260)
        sendNackSweep alive pending roomFor fuel rest
          (acc + (nackChunks roomFor miss).length)

/-- C8-style evaluation for C7: as soon as the sweep reaches a live sender
with pending inbound packets, the `continue` without `i++` loops on the same
entry for ever — no amount of fuel lets `sendNackPackets` finish, so the
function never returns a datagram count and never reaches the remaining
senders. -/
theorem C7_pending_sender_loops_forever (alive pending : Nat → Bool) (roomFor : Nat)
    (u : Nat) (miss : List Nat) (rest : List (Nat × List Nat)) (acc : Nat)
    (halive : alive u = true) (hpending : pending u = true) :
    ∀ fuel, sendNackSweep alive pending roomFor fuel ((u, miss) :: rest) acc = none := by
  intro fuel
  induction fuel with
  | zero => rfl
  | succ n ih =>
      show sendNackSweep alive pending roomFor (n + 1) ((u, miss) :: rest) acc = none
      unfold sendNackSweep
      rw [halive, hpending]
      simpa using ih

/-- C7 witness: one live, pending sender exhausts any concrete fuel. -/
theorem C7_witness :
    sendNackSweep (fun _ => true) (fun _ => true) 9 5 [(0, [4, 5])] 0 = none :=
  C7_pending_sender_loops_forever (fun _ => true) (fun _ => true) 9 0 [4, 5] [] 0
    rfl rfl 5

/-! ## Edit-record loop (C8, processPacket lines 119-147)

`while (atByte < packet.size())` asks the octree for the bytes consumed by
the record at `atByte` (`processEditPacketData`, an external collaborator
modelled as the function `consume`) and advances `atByte` by exactly that
amount (lines 145-146).  There is no check for zero bytes consumed.  The
loop is modelled with explicit fuel; `none` means the fuel was exhausted
with unread bytes remaining. -/

/-- Fuel-bounded record loop; returns the number of edits processed
(`editsInPacket`) when the cursor reaches the end of the packet. -/
def editRecordLoop (consume : Nat → Nat → Nat) (packetSize : Nat) :
    Nat → Nat → Nat → Option Nat
  | 0, atByte, edits => if atByte < packetSize then none else some edits
  | fuel + 1, atByte, edits =>
      if atByte < packetSize then
        editRecordLoop consume packetSize fuel
          (atByte + consume atByte (packetSize - atByte)) (edits + 1)
      else some edits

/-- C8: if the octree reports `0` bytes consumed at a cursor position with
unread bytes remaining, the record loop never terminates — `atByte` is
advanced by zero and the same record is retried for ever, for any fuel.
The source has no `break` for this case. -/
theorem C8_zero_consumed_loops_forever (consume : Nat → Nat → Nat) (packetSize : Nat)
    (atByte : Nat) (hzero : consume atByte (packetSize - atByte) = 0)
    (hlt : atByte < packetSize) :
    ∀ (fuel edits : Nat), editRecordLoop consume packetSize fuel atByte edits = none := by
  intro fuel
  induction fuel with
  | zero =>
      intro edits
      unfold editRecordLoop
      rw [if_pos hlt]
  | succ n ih =>
      intro edits
      show editRecordLoop consume packetSize (n + 1) atByte edits = none
      unfold editRecordLoop
      rw [if_pos hlt, hzero]
      exact ih (edits + 1)

/-- C8 witness: an octree that consumes zero bytes at offset 0 of a 10-byte
edit payload starves any concrete fuel. -/
theorem C8_witness :
    editRecordLoop (fun _ _ => 0) 10 7 0 0 = none :=
  C8_zero_consumed_loops_forever (fun _ _ => 0) 10 0 rfl (by decide) 7 0

/-! ## Fallback node id aliasing (C10, processPacket lines 19 and 155-168)

`static QUuid DEFAULT_NODE_ID_REF;` is a process-wide mutable static.  In
`processPacket`, `QUuid& nodeUUID = DEFAULT_NODE_ID_REF;` binds a REFERENCE
to it, and the known-sender branch executes
`nodeUUID = sendingNode->getUUID();` — an assignment THROUGH the reference
that overwrites the static itself.  A null `sendingNode` leaves the static
untouched and the packet is tracked under whatever UUID the static currently
holds. -/

/-- The attribution-relevant state: the static `DEFAULT_NODE_ID_REF` (as a
`Nat`; `0` stands for the initial null `QUuid`) and the log of
`(nodeUUID, sequence)` pairs passed to `trackInboundPacket`. -/
structure ProcessorState where
  defaultNodeIdRef : Nat
  trackedLog : List (Nat × Nat)
  deriving DecidableEq

/-- Sender attribution of one `processPacket` call (lines 155-168) for a
handled packet type. -/
def processPacketAttribution (st : ProcessorState) (sender : Option Nat) (seq : Nat) :
    ProcessorState :=
  match sender with
  | some u => { defaultNodeIdRef := u, trackedLog := st.trackedLog ++ [(u, seq)] }
  | none => { st with trackedLog := st.trackedLog ++ [(st.defaultNodeIdRef, seq)] }

/-- Fold the attribution over a packet history of `(sender?, sequence)`. -/
def runProcessor (st : ProcessorState) (l : List (Option Nat × Nat)) : ProcessorState :=
  l.foldl (fun s c => processPacketAttribution s c.1 c.2) st

/-- C10: an anonymous packet (null sending node) is tracked under the UUID
currently held by the process-wide fallback reference; since every
known-sender call writes that sender's UUID through the same reference, an
anonymous packet arriving right after a packet from sender `u` — after any
prior history — is attributed to `u`, not to a stable nil/default bucket. -/
theorem C10_anonymous_attributed_to_last_sender (st : ProcessorState)
    (l : List (Option Nat × Nat)) (u s1 s2 : Nat) :
    (runProcessor st (l ++ [(some u, s1), (none, s2)])).trackedLog =
      (runProcessor st l).trackedLog ++ [(u, s1), (u, s2)] := by
  unfold runProcessor
  rw [List.foldl_append]
  simp [processPacketAttribution]

/-! ## SnapshotCodec (C9, OctreeDataUtils.cpp) -/

/-- JSON-compatible value tree (the part of `QVariant`/`QJsonValue` this
codec touches).  Entity objects are opaque to this core and appear as
arbitrary values inside the `Entities` list. -/
inductive JVal where
  | vint : Int → JVal
  | vstr : String → JVal
  | vlist : List JVal → JVal

/-- `OctreeUtils::RawEntityData`: snapshot id (`QUuid`, modelled as an
opaque `Nat`), data version, version and the entity array
(`variantEntityData`). -/
structure RawEntityData where
  id : Nat
  dataVersion : Int
  version : Int
  variantEntityData : List JVal

/-- Key lookup in the parsed JSON object (`QVariantMap` access). -/
def jlookup (k : String) : List (String × JVal) → Option JVal
  | [] => none
  | (k', v) :: rest => if k' = k then some v else jlookup k rest

/-- `QVariant::toInt` on the header fields: the held integer, else 0. -/
def jvalToInt : JVal → Int
  | JVal.vint i => i
  | _ => 0

/-- `QVariant::toUuid` on the `Id` field: parse the held string, else the
null uuid (0). -/
def jvalToUuid (stringToUuid : String → Nat) : JVal → Nat
  | JVal.vstr s => stringToUuid s
  | _ => 0

/-- `QVariant::toList` on the `Entities` field: the held list; an absent key
or non-list value yields the empty list. -/
def jvalToList : Option JVal → List JVal
  | some (JVal.vlist l) => l
  | _ => []

/-- Modelled from the spec: the pieces of this data path that are not under
`src/` — the entity JSON parser (`OctreeEntitiesFileParser`), the gzip codec
(`Gzip.h`), `QJsonDocument::toJson` and the `QUuid` string conversion — are
the §6 collaborator interfaces, taken here as abstract functions.  The
round-trip theorem assumes only their §6 contracts, and only at the values
actually used. -/
structure SnapshotOracles where
  printFn : List (String × JVal) → List Nat
  parseFn : List Nat → Option (List (String × JVal))
  gzipFn : List Nat → Option (List Nat)
  gunzipFn : List Nat → Option (List Nat)
  uuidToString : Nat → String
  stringToUuid : String → Nat

/-- The JSON object written by `toByteArray` (lines 106-119) together with
`RawEntityData::writeSubclassData` (lines 155-163): `DataVersion`, `Id` (in
string form), `Version`, then the `Entities` array. -/
def toJsonMap (o : SnapshotOracles) (d : RawEntityData) : List (String × JVal) :=
  [("DataVersion", JVal.vint d.dataVersion),
   ("Id", JVal.vstr (o.uuidToString d.id)),
   ("Version", JVal.vint d.version),
   ("Entities", JVal.vlist d.variantEntityData)]

/-- `toByteArray` (lines 106-119): serialize the JSON object to bytes. -/
def toByteArray (o : SnapshotOracles) (d : RawEntityData) : List Nat :=
  o.printFn (toJsonMap o d)

/-- `toGzippedByteArray` (lines 121-131): gzip the serialized bytes;
`none` models the error path returning an empty `QByteArray`. -/
def toGzippedByteArray (o : SnapshotOracles) (d : RawEntityData) : Option (List Nat) :=
  o.gzipFn (toByteArray o d)

/-- `readOctreeDataInfoFromMap` (lines 60-68) with
`RawEntityData::readSubclassData` (lines 151-153): the three header fields
are read only when all three keys are present; the entity list is always
read from `root["Entities"].toList()`. -/
def readOctreeDataInfoFromMap (o : SnapshotOracles) (d : RawEntityData)
    (root : List (String × JVal)) : RawEntityData :=
  let d' :=
    if (jlookup "Id" root).isSome ∧ (jlookup "DataVersion" root).isSome ∧
        (jlookup "Version" root).isSome then
      { d with
        id := jvalToUuid o.stringToUuid ((jlookup "Id" root).getD (JVal.vint 0))
        dataVersion := jvalToInt ((jlookup "DataVersion" root).getD (JVal.vint 0))
        version := jvalToInt ((jlookup "Version" root).getD (JVal.vint 0)) }
    else d
  { d' with variantEntityData := jvalToList (jlookup "Entities" root) }

/-- Lines 71-74: attempt gunzip and use its output when it succeeds
(auto-detected framing), else the raw bytes. -/
def gunzipOrRaw (o : SnapshotOracles) (data : List Nat) : List Nat :=
  match o.gunzipFn data with
  | some jsonData => jsonData
  | none => data

lemma gunzipOrRaw_of_none (o : SnapshotOracles) (data : List Nat)
    (h : o.gunzipFn data = none) : gunzipOrRaw o data = data := by
  unfold gunzipOrRaw
  rw [h]

/-- `readOctreeDataInfoFromData` (lines 70-85): gunzip or raw bytes, parse
the entity JSON into a map (`none` models the `return false` path), then
read header and subclass data into the receiver `d`. -/
def readOctreeDataInfoFromData (o : SnapshotOracles) (d : RawEntityData)
    (data : List Nat) : Option RawEntityData :=
  match o.parseFn (gunzipOrRaw o data) with
  | none => none
  | some root => some (readOctreeDataInfoFromMap o d root)

/-- C9: writing a snapshot envelope to bytes, gzipping, gunzipping, and
reading the result back into a fresh envelope `d0` preserves `id`,
`dataVersion`, `version` and the entity array in order.  The hypotheses are
the §6 collaborator contracts at the values used: gzip round-trips on the
written bytes, the written JSON text is not gzip-framed, the JSON codec
round-trips on the written object, and the UUID string conversion
round-trips on the written id. -/
theorem C9_snapshot_roundtrip (o : SnapshotOracles) (d d0 : RawEntityData)
    (gz plain : List Nat)
    (hgz : toGzippedByteArray o d = some gz)
    (hungz : o.gunzipFn gz = some plain)
    (hinv : plain = toByteArray o d)
    (hplain : o.gunzipFn (toByteArray o d) = none)
    (hparse : o.parseFn (toByteArray o d) = some (toJsonMap o d))
    (huuid : o.stringToUuid (o.uuidToString d.id) = d.id) :
    readOctreeDataInfoFromData o d0 plain =
      some { d0 with
        id := d.id
        dataVersion := d.dataVersion
        version := d.version
        variantEntityData := d.variantEntityData } := by
  subst hinv
  unfold readOctreeDataInfoFromData
  rw [gunzipOrRaw_of_none o _ hplain, hparse]
  unfold readOctreeDataInfoFromMap toJsonMap
  simp [jlookup, jvalToInt, jvalToUuid, jvalToList, huuid]

/-- Concrete collaborator instances for exercising the round-trip: a
one-byte JSON encoding of the sample object, gzip as prepending a zero
byte, a constant UUID rendering. -/
def sampleOracles : SnapshotOracles :=
  ⟨fun _ => [1],
    fun b => if b = [1] then
      some [("DataVersion", JVal.vint 3), ("Id", JVal.vstr "u"),
        ("Version", JVal.vint 9), ("Entities", JVal.vlist [JVal.vint 42])]
      else none,
    fun b => some (0 :: b),
    fun b => match b with | 0 :: t => some t | _ => none,
    fun _ => "u", fun _ => 7⟩

/-- C9 witness: the concrete collaborators satisfy the contracts for the
concrete envelope `{id := 7, dataVersion := 3, version := 9,
entities := [42]}`, and reading the gunzipped bytes reconstructs it. -/
theorem C9_witness :
    readOctreeDataInfoFromData sampleOracles ⟨0, 0, 0, []⟩ [1] =
      some ⟨7, 3, 9, [JVal.vint 42]⟩ :=
  C9_snapshot_roundtrip sampleOracles ⟨7, 3, 9, [JVal.vint 42]⟩ ⟨0, 0, 0, []⟩ [0, 1] [1]
    rfl rfl rfl rfl rfl rfl

-- Scenario sanity checks (spec §8, S1-S5).
example : (runTrack .init [10, 11, 12, 13]).incomingLastSequence = 13 := by decide
example : (runTrack .init [10, 11, 12, 13]).missingSequenceNumbers = ∅ := by decide
example : (runTrack .init [10, 11, 12, 13]).totalPackets = 4 := by decide
example : (runTrack .init [10, 13]).missingSequenceNumbers = {11, 12} := by decide
example : (runTrack .init [10, 13, 11]).missingSequenceNumbers = {12} := by decide
example : (runTrack .init [65534, 1]).incomingLastSequence = 1 := by decide
example : (runTrack .init [65534, 1]).missingSequenceNumbers = {65535, 0} := by decide
example : (runTrack .init [100, 5000]).incomingLastSequence = 100 := by decide
example : (runTrack .init [100, 5000]).totalPackets = 1 := by decide
example : (runTrack .init [0, 102]).missingSequenceNumbers.card = 101 := by decide
